import Mathlib

/-!
Verification of the response-normalization pipeline, diff truncator and
review orchestrator of the AI PR reviewer backend (`src/backend/logic.py`,
`src/backend/models.py`).  Python strings are modelled as `List Char`,
Python exceptions as `Option.none`, JSON values as the inductive `Json`
below.  Python's `float` comparison `last_newline > max_chars * 0.8` is
modelled by the exact integer comparison `5 * last_newline > 4 * max_chars`;
the two agree for every `max_chars` below 2^50 (the double rounding error of
`max_chars * 0.8` is far smaller than the distance from the nearest integer
whenever the comparison could be affected).
-/

/-- Python whitespace characters stripped by `str.strip()` (ASCII fragment). -/
def isPySpace (c : Char) : Bool :=
  c = ' ' || c = '\t' || c = '\n' || c = '\r' || c = '\x0b' || c = '\x0c'

/-- Python `str.strip()`: remove trailing whitespace (via reverse), then leading. -/
def pyStrip (l : List Char) : List Char :=
  ((l.reverse.dropWhile isPySpace).reverse).dropWhile isPySpace

/-- Python `str.upper()` (ASCII fragment, which is all the code compares). -/
def pyUpper (l : List Char) : List Char := l.map Char.toUpper

/-- Index of the last newline in the list, `-1` if there is none: Python
`str.rfind('\n')`. -/
def rfindNl : List Char → Int
  | [] => -1
  | c :: cs =>
    let r := rfindNl cs
    if 0 ≤ r then r + 1 else if c = '\n' then 0 else -1

/-- The fixed sentinel appended by `truncate_diff` (logic.py line 135). -/
def SENTINEL : List Char := ("\n\n[... DIFF TRUNCATED DUE TO SIZE LIMIT ...]").data

/-- Embedding of `truncate_diff` (logic.py lines 121-135).  The Python float
comparison `last_newline > max_chars * 0.8` is the exact comparison
`5 * last_newline > 4 * max_chars` (see the header note). -/
def truncate_diff (diff_content : List Char) (max_chars : Nat) : List Char :=
  if diff_content.length ≤ max_chars then diff_content
  else
    let truncated := diff_content.take max_chars
    let last_newline := rfindNl truncated
    let truncated :=
      if 5 * last_newline > 4 * (max_chars : Int) then
        truncated.take last_newline.toNat
      else truncated
    truncated ++ SENTINEL

/-- Match a literal at the front of the input, returning the remainder. -/
def matchLit : List Char → List Char → Option (List Char)
  | [], s => some s
  | _ :: _, [] => none
  | c :: cs, x :: xs => if x = c then matchLit cs xs else none

/-- Value of a run of decimal digits, Python `int(...)` on a digit string. -/
def digitsToNat (ds : List Char) : Nat :=
  ds.foldl (fun a c => 10 * a + (c.toNat - ('0').toNat)) 0

/-- Embedding of `parse_pr_url` (logic.py lines 58-76): `re.match` of
`https?://github\.com/([^/]+)/([^/]+)/pull/(\d+)` on the stripped input
(prefix match, trailing text permitted), `none` models the raised
`ValueError`.  The regex is deterministic: `[^/]+` is a maximal nonempty
run of non-slash characters and `\d+` a maximal nonempty digit run. -/
def parse_pr_url (pr_url : List Char) : Option (List Char × List Char × Nat) :=
  let s := pyStrip pr_url
  match matchLit (("http").data) s with
  | none => none
  | some s1 =>
    let s2 := if s1.head? = some 's' then s1.tail else s1
    match matchLit (("://github.com/").data) s2 with
    | none => none
    | some s3 =>
      let owner := s3.takeWhile (fun c => c != '/')
      let s4 := s3.dropWhile (fun c => c != '/')
      if owner.isEmpty then none
      else if s4.head? = some '/' then
        let s5 := s4.tail
        let repo := s5.takeWhile (fun c => c != '/')
        let s6 := s5.dropWhile (fun c => c != '/')
        if repo.isEmpty then none
        else
          match matchLit (("/pull/").data) s6 with
          | none => none
          | some s7 =>
            let ds := s7.takeWhile (fun c => c.isDigit)
            if ds.isEmpty then none
            else some (owner, repo, digitsToNat ds)
      else none

/-- JSON values as produced by `json.loads`.  Numbers are modelled as
integers: the requested schema only ever uses integer numerals, and none of
the verified claims involves fractional literals. -/
inductive Json where
  | null
  | bool (b : Bool)
  | num (n : Int)
  | str (s : List Char)
  | arr (elems : List Json)
  | obj (members : List (List Char × Json))

/-- Python `dict` lookup on the member list built by the parser: a later
binding of the same key overwrites an earlier one, exactly as repeated keys
behave in `json.loads`. -/
def dget (kvs : List (List Char × Json)) (k : List Char) : Option Json :=
  kvs.foldl (fun acc kv => if kv.1 = k then some kv.2 else acc) none

/-- JSON whitespace skipped by the decoder. -/
def isJsonWs (c : Char) : Bool := c = ' ' || c = '\t' || c = '\n' || c = '\r'

/-- Skip JSON whitespace. -/
def skipWs (l : List Char) : List Char := l.dropWhile isJsonWs

/-- Value of one hexadecimal digit, if any. -/
def hexVal (c : Char) : Option Nat :=
  if '0' ≤ c ∧ c ≤ '9' then some (c.toNat - ('0').toNat)
  else if 'a' ≤ c ∧ c ≤ 'f' then some (c.toNat - ('a').toNat + 10)
  else if 'A' ≤ c ∧ c ≤ 'F' then some (c.toNat - ('A').toNat + 10)
  else none

/-- JSON string body after the opening quote: ordinary characters, the
standard escapes and `\uXXXX`; raw control characters are rejected as in
strict-mode `json.loads`.  Fuel bounds the recursion. -/
def parseJStr : Nat → List Char → Option (List Char × List Char)
  | 0, _ => none
  | _ + 1, [] => none
  | f + 1, c :: rest =>
    if c = '"' then some ([], rest)
    else if c = '\\' then
      match rest with
      | [] => none
      | e :: rest2 =>
        let dec : Option (Char × List Char) :=
          if e = '"' then some ('"', rest2)
          else if e = '\\' then some ('\\', rest2)
          else if e = '/' then some ('/', rest2)
          else if e = 'b' then some ('\x08', rest2)
          else if e = 'f' then some ('\x0c', rest2)
          else if e = 'n' then some ('\n', rest2)
          else if e = 'r' then some ('\r', rest2)
          else if e = 't' then some ('\t', rest2)
          else if e = 'u' then
            match rest2 with
            | h1 :: h2 :: h3 :: h4 :: rest3 =>
              match hexVal h1, hexVal h2, hexVal h3, hexVal h4 with
              | some a, some b, some c', some d =>
                some (Char.ofNat (((a * 16 + b) * 16 + c') * 16 + d), rest3)
              | _, _, _, _ => none
            | _ => none
          else none
        match dec with
        | some (ch, r) =>
          match parseJStr f r with
          | some (s, r') => some (ch :: s, r')
          | none => none
        | none => none
    else if c.toNat < 32 then none
    else
      match parseJStr f rest with
      | some (s, r') => some (c :: s, r')
      | none => none

/-- JSON integer numeral: optional minus, nonempty digit run, no leading
zero unless the number is exactly zero; a following `.`, `e` or `E` (a
float literal) is outside the model and rejected. -/
def parseJNum (l : List Char) : Option (Int × List Char) :=
  let (neg, l1) :=
    match l with
    | '-' :: r => (true, r)
    | _ => (false, l)
  let ds := l1.takeWhile (fun c => c.isDigit)
  let rest := l1.dropWhile (fun c => c.isDigit)
  if ds.isEmpty then none
  else if 1 < ds.length ∧ ds.head? = some '0' then none
  else
    match rest with
    | '.' :: _ => none
    | 'e' :: _ => none
    | 'E' :: _ => none
    | _ =>
      let v : Int := (digitsToNat ds : Int)
      some (if neg then -v else v, rest)

mutual

/-- JSON value parser (recursive descent, fuel-bounded). -/
def parseVal : Nat → List Char → Option (Json × List Char)
  | 0, _ => none
  | f + 1, l =>
    match skipWs l with
    | [] => none
    | c :: rest =>
      if c = '\x7b' then
        match skipWs rest with
        | '\x7d' :: r2 => some (.obj [], r2)
        | r1 =>
          match parseObjItems f r1 with
          | some (ms, r) => some (.obj ms, r)
          | none => none
      else if c = '[' then
        match skipWs rest with
        | ']' :: r2 => some (.arr [], r2)
        | r1 =>
          match parseArrItems f r1 with
          | some (vs, r) => some (.arr vs, r)
          | none => none
      else if c = '"' then
        match parseJStr (rest.length + 1) rest with
        | some (s, r) => some (.str s, r)
        | none => none
      else if c = 't' then
        match matchLit (("rue").data) rest with
        | some r => some (.bool true, r)
        | none => none
      else if c = 'f' then
        match matchLit (("alse").data) rest with
        | some r => some (.bool false, r)
        | none => none
      else if c = 'n' then
        match matchLit (("ull").data) rest with
        | some r => some (.null, r)
        | none => none
      else if c = '-' || c.isDigit then
        match parseJNum (c :: rest) with
        | some (n, r) => some (.num n, r)
        | none => none
      else none

/-- One-or-more comma-separated array items followed by `]`. -/
def parseArrItems : Nat → List Char → Option (List Json × List Char)
  | 0, _ => none
  | f + 1, l =>
    match parseVal f l with
    | none => none
    | some (v, r) =>
      match skipWs r with
      | ',' :: r2 =>
        match parseArrItems f r2 with
        | some (vs, r3) => some (v :: vs, r3)
        | none => none
      | ']' :: r2 => some ([v], r2)
      | _ => none

/-- One-or-more `"key": value` object members followed by the closing brace. -/
def parseObjItems : Nat → List Char → Option (List (List Char × Json) × List Char)
  | 0, _ => none
  | f + 1, l =>
    match skipWs l with
    | '"' :: r =>
      match parseJStr (r.length + 1) r with
      | none => none
      | some (k, r1) =>
        match skipWs r1 with
        | ':' :: r2 =>
          match parseVal f r2 with
          | none => none
          | some (v, r3) =>
            match skipWs r3 with
            | ',' :: r4 =>
              match parseObjItems f r4 with
              | some (ms, r5) => some ((k, v) :: ms, r5)
              | none => none
            | '\x7d' :: r4 => some ([(k, v)], r4)
            | _ => none
        | _ => none
    | _ => none

end

/-- Python `json.loads`: one JSON value spanning the whole input (surrounding
whitespace allowed), `none` models `json.JSONDecodeError`. -/
def json_loads (l : List Char) : Option Json :=
  match parseVal (2 * l.length + 2) l with
  | some (v, r) => if skipWs r = [] then some v else none
  | none => none

/-- The `ReviewDecision` enum of `models.py`. -/
inductive ReviewDecision where
  | APPROVE
  | REQUEST_CHANGES
deriving DecidableEq

/-- The `FileComment` pydantic model of `models.py` (its `ge=1` constraint on
`line` is proved, not assumed). -/
structure FileComment where
  file : List Char
  line : Int
  issue : List Char
  suggestion : List Char
deriving DecidableEq

/-- The `ReviewResponse` pydantic model of `models.py`. -/
structure ReviewResponse where
  summary : List Char
  comments : List FileComment
  decision : ReviewDecision
deriving DecidableEq

/-- Comma-and-space separated concatenation, as in Python container `repr`. -/
def commaJoin : List (List Char) → List Char
  | [] => []
  | [x] => x
  | x :: y :: xs => x ++ ',' :: ' ' :: commaJoin (y :: xs)

/-- The single-quote character used by Python container `repr`. -/
def squote : Char := Char.ofNat 39

mutual

/-- Python `repr` of a decoded JSON value (fragment: strings are shown in
single quotes without inner-quote escaping, which no claim exercises). -/
def pyRepr : Json → List Char
  | .null => ("None").data
  | .bool true => ("True").data
  | .bool false => ("False").data
  | .num n => (toString n).data
  | .str s => squote :: s ++ [squote]
  | .arr xs => '[' :: commaJoin (pyReprList xs) ++ [']']
  | .obj ms => '\x7b' :: commaJoin (pyReprObj ms) ++ ['\x7d']

/-- `repr` of the elements of a list. -/
def pyReprList : List Json → List (List Char)
  | [] => []
  | x :: xs => pyRepr x :: pyReprList xs

/-- `repr` of the members of a dict. -/
def pyReprObj : List (List Char × Json) → List (List Char)
  | [] => []
  | (k, v) :: ms => (squote :: k ++ squote :: ':' :: ' ' :: pyRepr v) :: pyReprObj ms

end

/-- Python `str(...)` of a decoded JSON value: a string is returned as-is,
anything else via its `repr` (`str(True) = "True"`, `str(None) = "None"`,
`str(3) = "3"`). -/
def pyStr : Json → List Char
  | .str s => s
  | j => pyRepr j

/-- Python `int(str)`: strip whitespace, optional sign, nonempty digit run
(the underscore digit separator is outside the model). -/
def parseIntStr (s : List Char) : Option Int :=
  let t := pyStrip s
  let core : List Char → Option Nat := fun ds =>
    if ds.isEmpty then none
    else if ds.all (fun c => c.isDigit) then some (digitsToNat ds) else none
  match t with
  | '+' :: ds => (core ds).map (fun n => (n : Int))
  | '-' :: ds => (core ds).map (fun n => -(n : Int))
  | ds => (core ds).map (fun n => (n : Int))

/-- Python `int(...)` on a decoded JSON value; `none` models the raised
`TypeError`/`ValueError`. -/
def pyInt : Json → Option Int
  | .num n => some n
  | .bool b => some (if b then 1 else 0)
  | .str s => parseIntStr s
  | _ => none

/-- The per-comment coercion of `parse_llm_response` (logic.py lines
237-243): a non-dict entry raises `AttributeError` (`none`); `file`,
`issue` and `suggestion` are `str(...)`-coerced with defaults; `line` is
`max(1, int(...))` with default `1`, where a non-numeric value raises. -/
def coerceComment (c : Json) : Option FileComment :=
  match c with
  | .obj kvs =>
    match pyInt ((dget kvs (("line").data)).getD (.num 1)) with
    | none => none
    | some ln =>
      some { file := pyStr ((dget kvs (("file").data)).getD (.str (("unknown").data)))
             line := max 1 ln
             issue := pyStr ((dget kvs (("issue").data)).getD (.str []))
             suggestion := pyStr ((dget kvs (("suggestion").data)).getD (.str [])) }
  | _ => none

/-- The comment loop: Python `for`-appends, the first raising entry aborts
the whole loop (there is no per-entry handler in the source). -/
def coerceAll : List Json → Option (List FileComment)
  | [] => some []
  | c :: cs =>
    match coerceComment c with
    | none => none
    | some f =>
      match coerceAll cs with
      | some fs => some (f :: fs)
      | none => none

/-- `data.get("comments", [])` followed by the `for` loop: iterating a
string yields its characters and a dict its keys (each then raises in the
loop body unless the iteration is empty); other non-lists raise
`TypeError`. -/
def commentsOf (kvs : List (List Char × Json)) : Option (List FileComment) :=
  match (dget kvs (("comments").data)).getD (.arr []) with
  | .arr xs => coerceAll xs
  | .str s => if s.isEmpty then some [] else none
  | .obj ms => if ms.isEmpty then some [] else none
  | _ => none

/-- The decision handling of `parse_llm_response` (logic.py lines 229-233):
`data.get("decision", "REQUEST_CHANGES").upper()`, coerced to
`REQUEST_CHANGES` unless it is exactly one of the two recognized values; a
non-string decision raises `AttributeError` (`none`). -/
def decisionOf (kvs : List (List Char × Json)) : Option ReviewDecision :=
  match (dget kvs (("decision").data)).getD (.str (("REQUEST_CHANGES").data)) with
  | .str s =>
    let u := pyUpper s
    let d :=
      if u = ("APPROVE").data ∨ u = ("REQUEST_CHANGES").data then u
      else ("REQUEST_CHANGES").data
    if d = ("APPROVE").data then some .APPROVE else some .REQUEST_CHANGES
  | _ => none

/-- Field extraction of `parse_llm_response` (logic.py lines 228-254): the
decision is read first, then the comments, then the summary; any raise
inside the block becomes a `ValueError` (`none`). -/
def extractReview (j : Json) : Option ReviewResponse :=
  match j with
  | .obj kvs =>
    match decisionOf kvs, commentsOf kvs with
    | some dec, some cms =>
      some { summary := pyStr ((dget kvs (("summary").data)).getD
                          (.str (("No summary provided").data)))
             comments := cms
             decision := dec }
    | _, _ => none
  | _ => none

/-- First index holding a `\x7b` character. -/
def firstOpenIdx (s : List Char) : Option Nat :=
  List.findIdx? (fun c => c = '\x7b') s

/-- Last index holding a `\x7d` character. -/
def lastCloseIdx (s : List Char) : Option Nat :=
  match List.findIdx? (fun c => c = '\x7d') s.reverse with
  | some k => some (s.length - 1 - k)
  | none => none

/-- `re.search(r'\x7b[\s\S]*\x7d', cleaned)` of logic.py line 217: the
leftmost match runs from the first opening brace to the last closing brace
of the whole text, and exists precisely when that span is nonempty. -/
def extract_braces (s : List Char) : Option (List Char) :=
  match firstOpenIdx s, lastCloseIdx s with
  | some i, some j => if i < j then some ((s.drop i).take (j - i + 1)) else none
  | _, _ => none

/-- True when the list begins with three backticks. -/
def startsTicks : List Char → Bool
  | '\x60' :: '\x60' :: '\x60' :: _ => true
  | _ => false

/-- True when the list ends with three backticks. -/
def endsTicks (l : List Char) : Bool := startsTicks l.reverse

/-- First index holding a newline, Python `str.find('\n')`. -/
def findNl : List Char → Option Nat
  | [] => none
  | c :: cs => if c = '\n' then some 0 else (findNl cs).map (fun i => i + 1)

/-- The clean-up phase of `parse_llm_response` (logic.py lines 200-208):
strip, then if the text starts with a code fence drop its first line and,
if the result ends with a fence marker, drop those three characters and
strip again. -/
def cleanPhase (raw_response : List Char) : List Char :=
  let cleaned := pyStrip raw_response
  if startsTicks cleaned then
    let c1 :=
      match findNl cleaned with
      | some i => cleaned.drop (i + 1)
      | none => cleaned
    if endsTicks c1 then pyStrip (c1.take (c1.length - 3)) else c1
  else cleaned

/-- The parse phase (logic.py lines 212-226): direct `json.loads`, then on
failure the brace-span extraction, then `json.loads` of the span. -/
def recoverJson (cleaned : List Char) : Option Json :=
  match json_loads cleaned with
  | some d => some d
  | none =>
    match extract_braces cleaned with
    | some sub => json_loads sub
    | none => none

/-- Embedding of `parse_llm_response` (logic.py lines 194-254); `none`
models the raised `ValueError`. -/
def parse_llm_response (raw_response : List Char) : Option ReviewResponse :=
  match recoverJson (cleanPhase raw_response) with
  | some d => extractReview d
  | none => none

/-- The canned response returned on an empty diff (logic.py lines 271-275). -/
def cannedEmpty : ReviewResponse :=
  { summary := ("This PR appears to have no changes or an empty diff.").data
    comments := []
    decision := .APPROVE }

/-- Embedding of `review_pull_request` (logic.py lines 257-286).  The GitHub
and LLM collaborators are oracles: `fetch` returns the diff text for
`(owner, repo, number)` and `llm` maps the (truncated) diff to the raw
response text, `none` being a raised transport error.  `MAX_DIFF_CHARS`
is 10000. -/
def review_pull_request (pr_url : List Char)
    (fetch : List Char → List Char → Nat → List Char)
    (llm : List Char → Option (List Char)) : Option ReviewResponse :=
  match parse_pr_url pr_url with
  | none => none
  | some (owner, repo, pr_number) =>
    let diff_content := fetch owner repo pr_number
    if pyStrip diff_content = [] then some cannedEmpty
    else
      match llm (truncate_diff diff_content 10000) with
      | none => none
      | some raw => parse_llm_response raw

/-- A JSON value that encodes a schema-conforming comment with exactly the
field values of `cm`. -/
def CommentMatches (j : Json) (cm : FileComment) : Prop :=
  ∃ kvs, j = .obj kvs ∧
    dget kvs (("file").data) = some (.str cm.file) ∧
    dget kvs (("line").data) = some (.num cm.line) ∧
    1 ≤ cm.line ∧
    dget kvs (("issue").data) = some (.str cm.issue) ∧
    dget kvs (("suggestion").data) = some (.str cm.suggestion)

/-- The stripped URL decomposes according to the fixed pattern
`https?://github\.com/([^/]+)/([^/]+)/pull/(\d+)` under `re.match`
semantics: a prefix match whose owner and repo segments are maximal
nonempty slash-free runs, whose digit run is maximal and nonempty, and
whose extracted number is the value of that digit run.  `rest` is the
uninspected remainder of the input. -/
def PRUrlShape (pr_url owner repo : List Char) (n : Nat) : Prop :=
  ∃ ds rest,
    (pyStrip pr_url =
        ("http://github.com/").data ++ owner ++ '/' ::
          (repo ++ ("/pull/").data ++ ds ++ rest) ∨
      pyStrip pr_url =
        ("https://github.com/").data ++ owner ++ '/' ::
          (repo ++ ("/pull/").data ++ ds ++ rest)) ∧
    owner ≠ [] ∧ (∀ c ∈ owner, c ≠ '/') ∧
    repo ≠ [] ∧ (∀ c ∈ repo, c ≠ '/') ∧
    ds ≠ [] ∧ (∀ c ∈ ds, c.isDigit = true) ∧
    (∀ c cs, rest = c :: cs → c.isDigit = false) ∧
    n = digitsToNat ds

/-! Helper lemmas about `rfindNl` and `truncate_diff`. -/

theorem rfindNl_lt_length (l : List Char) : rfindNl l < (l.length : Int) := by
  induction l with
  | nil => simp [rfindNl]
  | cons c cs ih =>
    simp only [rfindNl, List.length_cons]
    split_ifs <;> push_cast <;> omega

theorem rfindNl_get (l : List Char) (h : 0 ≤ rfindNl l) :
    l[(rfindNl l).toNat]? = some '\n' := by
  induction l with
  | nil => simp [rfindNl] at h
  | cons c cs ih =>
    by_cases h0 : 0 ≤ rfindNl cs
    · have he : rfindNl (c :: cs) = rfindNl cs + 1 := by simp [rfindNl, h0]
      have ht : (rfindNl cs + 1).toNat = (rfindNl cs).toNat + 1 := by omega
      rw [he, ht, List.getElem?_cons_succ]
      exact ih h0
    · by_cases hc : c = '\n'
      · have he : rfindNl (c :: cs) = 0 := by simp [rfindNl, h0, hc]
        rw [he]
        simp [hc]
      · have he : rfindNl (c :: cs) = -1 := by simp [rfindNl, h0, hc]
        rw [he] at h
        omega

theorem truncate_diff_length_le (d : List Char) (m : Nat) :
    (truncate_diff d m).length ≤ m + SENTINEL.length := by
  by_cases h : d.length ≤ m
  · simp only [truncate_diff, if_pos h]
    omega
  · simp only [truncate_diff, if_neg h]
    by_cases hc : 5 * rfindNl (d.take m) > 4 * (m : Int)
    · simp only [if_pos hc, List.length_append, List.length_take]
      omega
    · simp only [if_neg hc, List.length_append, List.length_take]
      omega

/-- C4 counterexample: with the same limit on both applications the claim
fails.  The first truncation of a 22-character diff at limit 20 cuts at the
newline boundary at index 17 and appends the sentinel; re-truncating that
output at the same limit 20 cuts inside the sentinel (whose leading blank
line offers a later boundary at index 18), producing a different string. -/
theorem c4_counterexample :
    truncate_diff (truncate_diff (("aaaaaaaaaaaaaaaaa\nbbbb").data) 20) 20 ≠
      truncate_diff (("aaaaaaaaaaaaaaaaa\nbbbb").data) 20 := by
  decide

/-- C4 (amended): `truncate_diff` is idempotent when the second limit is at
least the first limit plus the sentinel length, since the first output's
length is bounded by that sum. -/
theorem c4_truncate_idempotent (d : List Char) (m1 m2 : Nat)
    (h : m1 + SENTINEL.length ≤ m2) :
    truncate_diff (truncate_diff d m1) m2 = truncate_diff d m1 := by
  have hl : (truncate_diff d m1).length ≤ m2 :=
    le_trans (truncate_diff_length_le d m1) h
  rw [truncate_diff, if_pos hl]

/-- C4 witness: the amended idempotence at a concrete diff and limits. -/
theorem c4_witness :
    truncate_diff (truncate_diff (("hello world this is a diff").data) 5) 49 =
      truncate_diff (("hello world this is a diff").data) 5 :=
  c4_truncate_idempotent _ 5 49 (by decide)

/-- C5 counterexample: a line boundary lying exactly at 80% of the limit is
not cut at (the code requires strictly more than 80%), so the output ends
mid-line even though the last boundary does not lie below the threshold.
Here the limit is 10, the last newline of the first 10 characters is at
index 8 = 80% of 10, the retained content is the raw 10-character cut, and
the character following it in the diff is `b`, not a newline. -/
theorem c5_counterexample :
    truncate_diff (("aaaaaaaa\nbbbbb").data) 10 =
      ((("aaaaaaaa\nbbbbb").data).take 10) ++ SENTINEL ∧
    rfindNl ((("aaaaaaaa\nbbbbb").data).take 10) = 8 ∧
    ¬(5 * (8 : Int) < 4 * (10 : Int)) ∧
    (("aaaaaaaa\nbbbbb").data)[10]? = some 'b' := by
  refine ⟨by decide, by decide, by decide, by decide⟩

/-- C5 (amended): for every diff strictly longer than the limit the output
length is at most the limit plus the sentinel length, and the retained
content (the part before the sentinel) either ends exactly at a line
boundary of the diff, or is the raw limit-sized cut taken because the last
line boundary within the first `limit` characters does not lie strictly
above 80% of the limit. -/
theorem c5_truncate_bounds (d : List Char) (m : Nat) (h : m < d.length) :
    (truncate_diff d m).length ≤ m + SENTINEL.length ∧
    ∃ r, truncate_diff d m = r ++ SENTINEL ∧
      (d[r.length]? = some '\n' ∨
        (5 * rfindNl (d.take m) ≤ 4 * (m : Int) ∧ r = d.take m)) := by
  have hnotle : ¬ d.length ≤ m := by omega
  refine ⟨truncate_diff_length_le d m, ?_⟩
  by_cases hc : 5 * rfindNl (d.take m) > 4 * (m : Int)
  · refine ⟨(d.take m).take (rfindNl (d.take m)).toNat, ?_, Or.inl ?_⟩
    · simp only [truncate_diff, if_neg hnotle, if_pos hc]
    · have h0 : 0 ≤ rfindNl (d.take m) := by
        have : (0 : Int) ≤ 4 * (m : Int) := by positivity
        omega
      have hlt : rfindNl (d.take m) < ((d.take m).length : Int) :=
        rfindNl_lt_length _
      have hget : (d.take m)[(rfindNl (d.take m)).toNat]? = some '\n' :=
        rfindNl_get _ h0
      have hmlen : (d.take m).length = m := by
        simp [List.length_take]
        omega
      have htn : (rfindNl (d.take m)).toNat < m := by
        rw [hmlen] at hlt
        omega
      have hlen : ((d.take m).take (rfindNl (d.take m)).toNat).length =
          (rfindNl (d.take m)).toNat := by
        simp [List.length_take]
        omega
      rw [List.getElem?_take, if_pos htn] at hget
      rw [hlen]
      exact hget
  · exact ⟨d.take m, by simp only [truncate_diff, if_neg hnotle, if_neg hc],
      Or.inr ⟨by omega, rfl⟩⟩

/-! The empty-diff short circuit of the orchestrator. -/

theorem pyStrip_eq_nil_of_all_space (l : List Char)
    (h : ∀ c ∈ l, isPySpace c = true) : pyStrip l = [] := by
  have h1 : l.reverse.dropWhile isPySpace = [] := by
    rw [List.dropWhile_eq_nil_iff]
    intro c hc
    exact h c (List.mem_reverse.mp hc)
  simp [pyStrip, h1]

/-- C8: when the fetched diff is the empty string, `review_pull_request`
returns the canned response (summary containing "no changes", no comments,
decision APPROVE), and the result does not depend on the LLM collaborator
at all — it is never invoked. -/
theorem c8_empty_diff (pr_url : List Char)
    (fetch : List Char → List Char → Nat → List Char)
    (llm llm' : List Char → Option (List Char))
    (o r : List Char) (n : Nat)
    (hp : parse_pr_url pr_url = some (o, r, n))
    (hf : fetch o r n = []) :
    review_pull_request pr_url fetch llm = some cannedEmpty ∧
    review_pull_request pr_url fetch llm = review_pull_request pr_url fetch llm' ∧
    (∃ pre suf, cannedEmpty.summary = pre ++ ("no changes").data ++ suf) ∧
    cannedEmpty.comments = [] ∧
    cannedEmpty.decision = .APPROVE := by
  have hmain : ∀ g : List Char → Option (List Char),
      review_pull_request pr_url fetch g = some cannedEmpty := by
    intro g
    simp [review_pull_request, hp, hf, pyStrip]
  refine ⟨hmain llm, (hmain llm).trans (hmain llm').symm, ?_, rfl, rfl⟩
  exact ⟨("This PR appears to have ").data, (" or an empty diff.").data, by decide⟩

/-- C8 witness: a concrete URL, a fetch oracle returning the empty diff,
and an LLM oracle that would fail if it were consulted. -/
theorem c8_witness :
    review_pull_request (("https://github.com/o/r/pull/1").data)
      (fun _ _ _ => []) (fun _ => none) = some cannedEmpty :=
  (c8_empty_diff _ _ _ (fun _ => some []) (("o").data) (("r").data) 1
    (by decide) rfl).1

/-- C10: the short circuit triggers on any whitespace-only diff, not just
the empty string, because the code tests `not diff_content.strip()`; the
canned approve response is returned and the LLM collaborator is never
consulted. -/
theorem c10_whitespace_diff (pr_url : List Char)
    (fetch : List Char → List Char → Nat → List Char)
    (llm llm' : List Char → Option (List Char))
    (o r : List Char) (n : Nat)
    (hp : parse_pr_url pr_url = some (o, r, n))
    (hf : ∀ c ∈ fetch o r n, isPySpace c = true) :
    review_pull_request pr_url fetch llm = some cannedEmpty ∧
    review_pull_request pr_url fetch llm = review_pull_request pr_url fetch llm' ∧
    (∃ pre suf, cannedEmpty.summary = pre ++ ("no changes").data ++ suf) ∧
    cannedEmpty.comments = [] ∧
    cannedEmpty.decision = .APPROVE := by
  have hstrip : pyStrip (fetch o r n) = [] := pyStrip_eq_nil_of_all_space _ hf
  have hmain : ∀ g : List Char → Option (List Char),
      review_pull_request pr_url fetch g = some cannedEmpty := by
    intro g
    simp [review_pull_request, hp, hstrip]
  refine ⟨hmain llm, (hmain llm).trans (hmain llm').symm, ?_, rfl, rfl⟩
  exact ⟨("This PR appears to have ").data, (" or an empty diff.").data, by decide⟩

/-- C10 witness: a fetch oracle returning a whitespace-only diff. -/
theorem c10_witness :
    review_pull_request (("https://github.com/o/r/pull/2").data)
      (fun _ _ _ => (" \t\n\x0c ").data) (fun _ => none) = some cannedEmpty :=
  (c10_whitespace_diff _ _ _ (fun _ => some []) (("o").data) (("r").data) 2
    (by decide) (by decide)).1

/-! Decision coercion and comment coercion. -/

/-- C1: (1) every response the normalizer accepts carries a decision that is
exactly APPROVE or REQUEST_CHANGES; (2) a missing decision coerces to
REQUEST_CHANGES; (3) a string decision is upper-cased and anything other
than exactly APPROVE coerces to REQUEST_CHANGES, without failing. -/
theorem c1_decision_coercion :
    (∀ raw r, parse_llm_response raw = some r →
      r.decision = .APPROVE ∨ r.decision = .REQUEST_CHANGES) ∧
    (∀ kvs, dget kvs (("decision").data) = none →
      decisionOf kvs = some .REQUEST_CHANGES) ∧
    (∀ kvs s, dget kvs (("decision").data) = some (.str s) →
      decisionOf kvs =
        some (if pyUpper s = ("APPROVE").data then .APPROVE
              else .REQUEST_CHANGES)) := by
  refine ⟨?_, ?_, ?_⟩
  · intro raw r _
    cases hr : r.decision with
    | APPROVE => exact Or.inl rfl
    | REQUEST_CHANGES => exact Or.inr rfl
  · intro kvs h
    simp only [decisionOf, h, Option.getD_none]
    decide
  · intro kvs s h
    simp only [decisionOf, h, Option.getD_some]
    by_cases hA : pyUpper s = ("APPROVE").data
    · simp [hA]
    · by_cases hR : pyUpper s = ("REQUEST_CHANGES").data
      · simp [hA, hR]
      · simp [hA, hR]

/-- C1 witness: the lowercase decision `approve` coerces to APPROVE. -/
theorem c1_witness :
    decisionOf [((("decision").data), Json.str (("approve").data))] =
      some .APPROVE :=
  (c1_decision_coercion.2.2 [((("decision").data), Json.str (("approve").data))]
    (("approve").data) rfl).trans (by decide)

/-- A comment entry failing to coerce aborts the whole loop. -/
theorem coerceAll_eq_none_of_mem (xs : List Json) (c : Json)
    (hc : c ∈ xs) (hbad : coerceComment c = none) : coerceAll xs = none := by
  induction xs with
  | nil => cases hc
  | cons a as ih =>
    rcases List.mem_cons.mp hc with h | h
    · subst h
      simp [coerceAll, hbad]
    · cases hca : coerceComment a <;> simp [coerceAll, hca, ih h]

/-- C2 counterexample: a malformed comment entry (here the non-object
`"bad"`) makes the entire normalization fail instead of being skipped; the
same input with that entry removed parses fine, so the entry alone is what
kills the response. -/
theorem c2_counterexample :
    parse_llm_response
        (("\x7b\"summary\":\"s\",\"comments\":[\"bad\"],\"decision\":\"APPROVE\"\x7d").data)
      = none ∧
    parse_llm_response
        (("\x7b\"summary\":\"s\",\"comments\":[],\"decision\":\"APPROVE\"\x7d").data)
      = some { summary := ("s").data, comments := [], decision := .APPROVE } :=
  ⟨rfl, rfl⟩

/-- C2 (amended): a malformed individual comment entry — one on which the
per-entry coercion raises — is fatal to the whole normalization: the field
extraction returns an error (there is no per-entry handler in the code). -/
theorem c2_malformed_entry_fatal (kvs : List (List Char × Json))
    (xs : List Json) (c : Json)
    (hcm : dget kvs (("comments").data) = some (.arr xs))
    (hc : c ∈ xs) (hbad : coerceComment c = none) :
    extractReview (.obj kvs) = none := by
  have hall : coerceAll xs = none := coerceAll_eq_none_of_mem xs c hc hbad
  have hcoms : commentsOf kvs = none := by
    simp only [commentsOf, hcm, Option.getD_some]
    exact hall
  cases hdec : decisionOf kvs <;> simp [extractReview, hdec, hcoms]

/-- C2 witness: a single non-object entry in the comments array is fatal. -/
theorem c2_witness :
    extractReview (.obj [((("comments").data), Json.arr [Json.null])]) = none :=
  c2_malformed_entry_fatal _ _ Json.null rfl (List.mem_singleton.mpr rfl) rfl

theorem coerceComment_line_ge (c : Json) (cm : FileComment)
    (h : coerceComment c = some cm) : 1 ≤ cm.line := by
  cases c with
  | obj kvs =>
    simp only [coerceComment] at h
    cases hli : pyInt ((dget kvs (("line").data)).getD (.num 1)) with
    | none => rw [hli] at h; exact absurd h (by simp)
    | some ln =>
      rw [hli] at h
      have := Option.some.inj h
      rw [← this]
      exact le_max_left 1 ln
  | null => exact absurd h (by simp [coerceComment])
  | bool b => exact absurd h (by simp [coerceComment])
  | num n => exact absurd h (by simp [coerceComment])
  | str s => exact absurd h (by simp [coerceComment])
  | arr xs => exact absurd h (by simp [coerceComment])

theorem coerceAll_line_ge (xs : List Json) (cms : List FileComment)
    (h : coerceAll xs = some cms) : ∀ cm ∈ cms, 1 ≤ cm.line := by
  induction xs generalizing cms with
  | nil =>
    simp only [coerceAll] at h
    rw [← Option.some.inj h]
    simp
  | cons a as ih =>
    simp only [coerceAll] at h
    cases hca : coerceComment a with
    | none => rw [hca] at h; exact absurd h (by simp)
    | some f =>
      rw [hca] at h
      cases has : coerceAll as with
      | none => rw [has] at h; exact absurd h (by simp)
      | some fs =>
        rw [has] at h
        rw [← Option.some.inj h]
        intro cm hcm
        rcases List.mem_cons.mp hcm with rfl | hmem
        · exact coerceComment_line_ge a cm hca
        · exact ih fs has cm hmem

theorem commentsOf_line_ge (kvs : List (List Char × Json))
    (cms : List FileComment) (h : commentsOf kvs = some cms) :
    ∀ cm ∈ cms, 1 ≤ cm.line := by
  simp only [commentsOf] at h
  split at h
  · exact coerceAll_line_ge _ cms h
  · split at h
    · rw [← Option.some.inj h]
      simp
    · exact absurd h (by simp)
  · split at h
    · rw [← Option.some.inj h]
      simp
    · exact absurd h (by simp)
  · exact absurd h (by simp)

/-- C3 counterexample: a non-numeric `line` (the string `"xs"`) does not
coerce to 1 — `int(...)` raises and the whole normalization fails. -/
theorem c3_counterexample :
    parse_llm_response
        (("\x7b\"summary\":\"s\",\"comments\":[\x7b\"file\":\"a\",\"line\":\"xs\",\"issue\":\"\",\"suggestion\":\"\"\x7d],\"decision\":\"APPROVE\"\x7d").data)
      = none ∧
    coerceComment (.obj [((("line").data), Json.str (("xs").data))]) = none :=
  ⟨rfl, rfl⟩

/-- C3 (amended): every comment the normalizer actually produces has
`line ≥ 1`; an integer `line` is clamped to `max 1`, and a missing `line`
defaults to 1 — but a non-numeric `line` makes normalization fail rather
than coercing to 1 (see the counterexample). -/
theorem c3_line_clamped :
    (∀ raw r, parse_llm_response raw = some r → ∀ cm ∈ r.comments, 1 ≤ cm.line) ∧
    (∀ kvs n, dget kvs (("line").data) = some (.num n) →
      ∃ cm, coerceComment (.obj kvs) = some cm ∧ cm.line = max 1 n) ∧
    (∀ kvs, dget kvs (("line").data) = none →
      ∃ cm, coerceComment (.obj kvs) = some cm ∧ cm.line = 1) := by
  refine ⟨?_, ?_, ?_⟩
  · intro raw r h
    simp only [parse_llm_response] at h
    split at h
    · rename_i j heq
      cases j with
      | obj kvs =>
        simp only [extractReview] at h
        split at h
        · rename_i dec cms hdec hcms
          have hr := Option.some.inj h
          have hrc : r.comments = cms := by rw [← hr]
          rw [hrc]
          exact commentsOf_line_ge kvs cms hcms
        · exact absurd h (by simp)
      | null => exact absurd h (by simp [extractReview])
      | bool b => exact absurd h (by simp [extractReview])
      | num n => exact absurd h (by simp [extractReview])
      | str s => exact absurd h (by simp [extractReview])
      | arr xs => exact absurd h (by simp [extractReview])
    · exact absurd h (by simp)
  · intro kvs n h
    refine ⟨{ file := pyStr ((dget kvs (("file").data)).getD (.str (("unknown").data)))
              line := max 1 n
              issue := pyStr ((dget kvs (("issue").data)).getD (.str []))
              suggestion := pyStr ((dget kvs (("suggestion").data)).getD (.str [])) },
      ?_, rfl⟩
    simp only [coerceComment, h, Option.getD_some, pyInt]
  · intro kvs h
    refine ⟨{ file := pyStr ((dget kvs (("file").data)).getD (.str (("unknown").data)))
              line := max 1 1
              issue := pyStr ((dget kvs (("issue").data)).getD (.str []))
              suggestion := pyStr ((dget kvs (("suggestion").data)).getD (.str [])) },
      ?_, by simp⟩
    simp only [coerceComment, h, Option.getD_none, pyInt]

/-- C3 witness: a negative integer line clamps to `max 1 (-5) = 1`. -/
theorem c3_witness :
    ∃ cm, coerceComment (.obj [((("line").data), Json.num (-5))]) = some cm ∧
      cm.line = max 1 (-5 : Int) :=
  c3_line_clamped.2.1 _ (-5) rfl

/-! Round-trip of schema-conforming input. -/

theorem parseVal_tick (f : Nat) (rest : List Char) :
    parseVal f ('\x60' :: rest) = none := by
  cases f with
  | zero => rfl
  | succ f => rfl

theorem json_loads_tick (rest : List Char) : json_loads ('\x60' :: rest) = none := by
  simp [json_loads, parseVal_tick]

theorem startsTicks_eq (l : List Char) (h : startsTicks l = true) :
    ∃ r, l = '\x60' :: '\x60' :: '\x60' :: r := by
  unfold startsTicks at h
  split at h
  · rename_i r
    exact ⟨r, rfl⟩
  · exact absurd h (by simp)

theorem startsTicks_false_of_loads (l : List Char) (v : Json)
    (h : json_loads l = some v) : startsTicks l = false := by
  cases hst : startsTicks l
  · rfl
  · obtain ⟨r, rfl⟩ := startsTicks_eq l hst
    rw [json_loads_tick] at h
    exact absurd h (by simp)

theorem cleanPhase_of_not_ticks (raw : List Char)
    (h : startsTicks (pyStrip raw) = false) : cleanPhase raw = pyStrip raw := by
  simp [cleanPhase, h]

theorem coerceAll_of_forall2 (cs : List Json) (cms : List FileComment)
    (h : List.Forall₂ CommentMatches cs cms) : coerceAll cs = some cms := by
  induction h with
  | nil => rfl
  | cons hcm htail ih =>
    rename_i c cm cs' cms'
    obtain ⟨kvs', rfl, hf, hl, h1, hi, hs⟩ := hcm
    have hone : coerceComment (.obj kvs') = some cm := by
      simp only [coerceComment, hl, hf, hi, hs, Option.getD_some, pyInt, pyStr,
        max_eq_right h1]
    simp only [coerceAll, hone, ih]

/-- C6: any parsed JSON object exactly matching the requested schema — a
string summary, a comments array whose entries carry the exact field values
of `cms` (with `line ≥ 1`), and a decision that is literally APPROVE or
REQUEST_CHANGES — normalizes to a `ReviewResponse` with identical field
values, the comments kept in order with none lost or duplicated. -/
theorem c6_roundtrip (raw : List Char) (kvs : List (List Char × Json))
    (sm ds : List Char) (cs : List Json) (cms : List FileComment)
    (hload : json_loads (pyStrip raw) = some (.obj kvs))
    (hsm : dget kvs (("summary").data) = some (.str sm))
    (hd : dget kvs (("decision").data) = some (.str ds))
    (hds : ds = ("APPROVE").data ∨ ds = ("REQUEST_CHANGES").data)
    (hcm : dget kvs (("comments").data) = some (.arr cs))
    (hmatch : List.Forall₂ CommentMatches cs cms) :
    parse_llm_response raw =
      some { summary := sm
             comments := cms
             decision := if ds = ("APPROVE").data then .APPROVE
                         else .REQUEST_CHANGES } := by
  have hst : startsTicks (pyStrip raw) = false :=
    startsTicks_false_of_loads _ _ hload
  have hcp : cleanPhase raw = pyStrip raw := cleanPhase_of_not_ticks raw hst
  have hdec : decisionOf kvs =
      some (if ds = ("APPROVE").data then ReviewDecision.APPROVE
            else .REQUEST_CHANGES) := by
    simp only [decisionOf, hd, Option.getD_some]
    rcases hds with rfl | rfl
    · decide
    · decide
  have hcms : commentsOf kvs = some cms := by
    simp only [commentsOf, hcm, Option.getD_some]
    exact coerceAll_of_forall2 cs cms hmatch
  simp only [parse_llm_response, hcp, recoverJson, hload, extractReview, hdec,
    hcms, hsm, Option.getD_some, pyStr]

/-- C6 witness: a concrete schema-conforming JSON text round-trips with all
field values preserved. -/
theorem c6_witness :
    parse_llm_response
        (("\x7b\"summary\":\"ok\",\"comments\":[\x7b\"file\":\"a.py\",\"line\":2,\"issue\":\"i\",\"suggestion\":\"fix\"\x7d],\"decision\":\"REQUEST_CHANGES\"\x7d").data)
      = some { summary := ("ok").data
               comments := [{ file := ("a.py").data, line := 2,
                              issue := ("i").data, suggestion := ("fix").data }]
               decision := .REQUEST_CHANGES } := by
  have h := c6_roundtrip
    (("\x7b\"summary\":\"ok\",\"comments\":[\x7b\"file\":\"a.py\",\"line\":2,\"issue\":\"i\",\"suggestion\":\"fix\"\x7d],\"decision\":\"REQUEST_CHANGES\"\x7d").data)
    [((("summary").data), Json.str (("ok").data)),
     ((("comments").data), Json.arr [Json.obj
       [((("file").data), Json.str (("a.py").data)),
        ((("line").data), Json.num 2),
        ((("issue").data), Json.str (("i").data)),
        ((("suggestion").data), Json.str (("fix").data))]]),
     ((("decision").data), Json.str (("REQUEST_CHANGES").data))]
    (("ok").data) (("REQUEST_CHANGES").data)
    [Json.obj
       [((("file").data), Json.str (("a.py").data)),
        ((("line").data), Json.num 2),
        ((("issue").data), Json.str (("i").data)),
        ((("suggestion").data), Json.str (("fix").data))]]
    [{ file := ("a.py").data, line := 2,
       issue := ("i").data, suggestion := ("fix").data }]
    rfl rfl rfl (Or.inr rfl) rfl
    (List.Forall₂.cons
      ⟨[((("file").data), Json.str (("a.py").data)),
        ((("line").data), Json.num 2),
        ((("issue").data), Json.str (("i").data)),
        ((("suggestion").data), Json.str (("fix").data))],
        rfl, rfl, rfl, by decide, rfl, rfl⟩
      List.Forall₂.nil)
  exact h.trans (by decide)

/-! Fence stripping. -/

/-- C7 counterexample: when the inner text itself begins with a fence, the
single (non-iterated) fence-stripping pass gives a different result for the
wrapped and unwrapped inputs: unwrapped, the inner fence line is stripped
and the object parses; wrapped, only the outer fence is stripped, the direct
parse fails, and the greedy first-brace-to-last-brace extraction grabs two
concatenated objects, which is not valid JSON — the whole parse fails. -/
theorem c7_counterexample :
    parse_llm_response
        ((("```json\n").data) ++
          (("```\x7b\"x\":0\x7d\n\x7b\"summary\":\"s\",\"comments\":[],\"decision\":\"APPROVE\"\x7d").data) ++
          (("\n```").data))
      = none ∧
    parse_llm_response
        (("```\x7b\"x\":0\x7d\n\x7b\"summary\":\"s\",\"comments\":[],\"decision\":\"APPROVE\"\x7d").data)
      = some { summary := ("s").data, comments := [], decision := .APPROVE } ∧
    parse_llm_response
        ((("```json\n").data) ++
          (("```\x7b\"x\":0\x7d\n\x7b\"summary\":\"s\",\"comments\":[],\"decision\":\"APPROVE\"\x7d").data) ++
          (("\n```").data)) ≠
      parse_llm_response
        (("```\x7b\"x\":0\x7d\n\x7b\"summary\":\"s\",\"comments\":[],\"decision\":\"APPROVE\"\x7d").data) := by
  refine ⟨rfl, rfl, ?_⟩
  intro h
  rw [(rfl :
    parse_llm_response
        ((("```json\n").data) ++
          (("```\x7b\"x\":0\x7d\n\x7b\"summary\":\"s\",\"comments\":[],\"decision\":\"APPROVE\"\x7d").data) ++
          (("\n```").data))
      = none)] at h
  exact Option.noConfusion h

theorem pyStrip_append_newline (t : List Char) :
    pyStrip (t ++ ['\n']) = pyStrip t := by
  have h1 : isPySpace '\n' = true := rfl
  simp [pyStrip, List.reverse_append, List.dropWhile_cons, h1]

/-- C7 (amended): wrapping a text in a fenced code block is transparent to
the normalizer provided the text does not itself (after stripping) begin
with a fence marker; the opening fence line and the trailing fence marker
are stripped before any parse attempt, and the pipeline proceeds on the
very same cleaned text as for the unwrapped input. -/
theorem c7_fence_strip (t : List Char)
    (h : startsTicks (pyStrip t) = false) :
    parse_llm_response ((("```json\n").data) ++ t ++ (("\n```").data)) =
      parse_llm_response t := by
  have hwrap : cleanPhase ((("```json\n").data) ++ t ++ (("\n```").data)) =
      pyStrip t := by
    have hO : (("```json\n").data) =
        ['\x60', '\x60', '\x60', 'j', 's', 'o', 'n', '\n'] := rfl
    have hC : (("\n```").data) = ['\n', '\x60', '\x60', '\x60'] := rfl
    rw [hO, hC]
    have hstrip : pyStrip
        (['\x60', '\x60', '\x60', 'j', 's', 'o', 'n', '\n'] ++ t ++
          ['\n', '\x60', '\x60', '\x60']) =
        ['\x60', '\x60', '\x60', 'j', 's', 'o', 'n', '\n'] ++ t ++
          ['\n', '\x60', '\x60', '\x60'] := by
      have hsp : isPySpace '\x60' = false := rfl
      simp [pyStrip, List.reverse_append, List.dropWhile_cons, hsp]
    unfold cleanPhase
    rw [hstrip]
    have hticks : startsTicks
        (['\x60', '\x60', '\x60', 'j', 's', 'o', 'n', '\n'] ++ t ++
          ['\n', '\x60', '\x60', '\x60']) = true := rfl
    rw [if_pos hticks]
    have hfind : findNl
        (['\x60', '\x60', '\x60', 'j', 's', 'o', 'n', '\n'] ++ t ++
          ['\n', '\x60', '\x60', '\x60']) = some 7 := rfl
    rw [hfind]
    have hdrop : (['\x60', '\x60', '\x60', 'j', 's', 'o', 'n', '\n'] ++ t ++
          ['\n', '\x60', '\x60', '\x60']).drop (7 + 1) =
        t ++ ['\n', '\x60', '\x60', '\x60'] := rfl
    dsimp only
    rw [hdrop]
    have hend : endsTicks (t ++ ['\n', '\x60', '\x60', '\x60']) = true := by
      simp [endsTicks, List.reverse_append]
      rfl
    rw [if_pos hend]
    have hlen : (t ++ ['\n', '\x60', '\x60', '\x60']).length - 3 =
        t.length + 1 := by
      simp
    rw [hlen]
    have htake : (t ++ ['\n', '\x60', '\x60', '\x60']).take (t.length + 1) =
        t ++ ['\n'] := by
      rw [List.take_append]
      rfl
    rw [htake]
    exact pyStrip_append_newline t
  have hunwrap : cleanPhase t = pyStrip t := cleanPhase_of_not_ticks t h
  simp only [parse_llm_response, hwrap, hunwrap]

/-- C7 witness: the amended transparency at a concrete non-fenced text. -/
theorem c7_witness :
    parse_llm_response
        ((("```json\n").data) ++
          (("\x7b\"summary\":\"ok\",\"comments\":[],\"decision\":\"approve\"\x7d").data) ++
          (("\n```").data)) =
      parse_llm_response
        (("\x7b\"summary\":\"ok\",\"comments\":[],\"decision\":\"approve\"\x7d").data) :=
  c7_fence_strip _ rfl

/-- C5 witness: the amended bound at a concrete diff and limit. -/
theorem c5_witness :
    (truncate_diff (("aaaaaaaaa\nbb").data) 10).length ≤ 10 + SENTINEL.length ∧
    ∃ r, truncate_diff (("aaaaaaaaa\nbb").data) 10 = r ++ SENTINEL ∧
      ((("aaaaaaaaa\nbb").data)[r.length]? = some '\n' ∨
        (5 * rfindNl ((("aaaaaaaaa\nbb").data).take 10) ≤ 4 * (10 : Int) ∧
          r = (("aaaaaaaaa\nbb").data).take 10)) :=
  c5_truncate_bounds _ 10 (by decide)


/-! URL parsing. -/

theorem matchLit_eq_some (lit s t : List Char) :
    matchLit lit s = some t ↔ s = lit ++ t := by
  induction lit generalizing s with
  | nil => simp [matchLit]
  | cons c cs ih =>
    cases s with
    | nil => simp [matchLit]
    | cons x xs =>
      by_cases hx : x = c
      · subst hx
        simp [matchLit, ih]
      · simp [matchLit, hx]

theorem takeWhile_spec (p : Char → Bool) (a b : List Char)
    (ha : ∀ c ∈ a, p c = true)
    (hb : ∀ c cs, b = c :: cs → p c = false) :
    (a ++ b).takeWhile p = a ∧ (a ++ b).dropWhile p = b := by
  induction a with
  | nil =>
    cases b with
    | nil => simp
    | cons c cs =>
      have hc := hb c cs rfl
      simp [List.takeWhile_cons, List.dropWhile_cons, hc]
  | cons x xs ih =>
    have hx : p x = true := ha x (by simp)
    have ih' := ih (fun c hc => ha c (by simp [hc]))
    simp [List.takeWhile_cons, List.dropWhile_cons, hx, ih'.1, ih'.2]

theorem mem_takeWhile_p (p : Char → Bool) (l : List Char) (c : Char)
    (h : c ∈ l.takeWhile p) : p c = true := by
  induction l with
  | nil => simp [List.takeWhile_nil] at h
  | cons x xs ih =>
    rw [List.takeWhile_cons] at h
    by_cases hx : p x = true
    · rw [if_pos hx] at h
      rcases List.mem_cons.mp h with rfl | h2
      · exact hx
      · exact ih h2
    · rw [if_neg hx] at h
      simp at h

theorem dropWhile_head_false (p : Char → Bool) (l : List Char) (c : Char)
    (cs : List Char) (h : l.dropWhile p = c :: cs) : p c = false := by
  induction l with
  | nil => simp [List.dropWhile_nil] at h
  | cons x xs ih =>
    rw [List.dropWhile_cons] at h
    by_cases hx : p x = true
    · rw [if_pos hx] at h
      exact ih h
    · rw [if_neg hx] at h
      injection h with h1 _
      subst h1
      simpa using hx

theorem isEmpty_false_of_ne_nil (l : List Char) (h : l ≠ []) :
    l.isEmpty = false := by
  cases l with
  | nil => exact absurd rfl h
  | cons a t => rfl

theorem cons_of_head? (l : List Char) (c : Char) (h : l.head? = some c) :
    l = c :: l.tail := by
  cases l with
  | nil => simp at h
  | cons a t =>
    have : a = c := by simpa using h
    rw [this]
    rfl

theorem build_shape (pr_url s3 s7 : List Char)
    (hone : ¬(List.takeWhile (fun c => c != '/') s3).isEmpty = true)
    (hslash : (List.dropWhile (fun c => c != '/') s3).head? = some '/')
    (hrne : ¬(List.takeWhile (fun c => c != '/')
        (List.dropWhile (fun c => c != '/') s3).tail).isEmpty = true)
    (he3 : List.dropWhile (fun c => c != '/')
        (List.dropWhile (fun c => c != '/') s3).tail = ("/pull/").data ++ s7)
    (hdne : ¬(List.takeWhile (fun c => c.isDigit) s7).isEmpty = true)
    (hsch : pyStrip pr_url = ("http://github.com/").data ++ s3 ∨
            pyStrip pr_url = ("https://github.com/").data ++ s3) :
    PRUrlShape pr_url (List.takeWhile (fun c => c != '/') s3)
      (List.takeWhile (fun c => c != '/')
        (List.dropWhile (fun c => c != '/') s3).tail)
      (digitsToNat (List.takeWhile (fun c => c.isDigit) s7)) := by
  have hchain :
      List.takeWhile (fun c => c != '/') s3 ++ '/' ::
        (List.takeWhile (fun c => c != '/')
            (List.dropWhile (fun c => c != '/') s3).tail ++
          (("/pull/").data ++
            (List.takeWhile (fun c => c.isDigit) s7 ++
              List.dropWhile (fun c => c.isDigit) s7))) = s3 := by
    rw [List.takeWhile_append_dropWhile]
    rw [← he3]
    rw [List.takeWhile_append_dropWhile]
    rw [← cons_of_head? _ _ hslash]
    rw [List.takeWhile_append_dropWhile]
  refine ⟨List.takeWhile (fun c => c.isDigit) s7,
    List.dropWhile (fun c => c.isDigit) s7, ?_, ?_, ?_, ?_, ?_, ?_, ?_, ?_, rfl⟩
  · rcases hsch with hsch | hsch
    · left
      rw [hsch]
      conv_lhs => rw [← hchain]
      simp [List.append_assoc]
    · right
      rw [hsch]
      conv_lhs => rw [← hchain]
      simp [List.append_assoc]
  · intro hnil
    exact hone (by rw [hnil]; rfl)
  · intro c hc
    simpa using mem_takeWhile_p _ _ _ hc
  · intro hnil
    exact hrne (by rw [hnil]; rfl)
  · intro c hc
    simpa using mem_takeWhile_p _ _ _ hc
  · intro hnil
    exact hdne (by rw [hnil]; rfl)
  · intro c hc
    exact mem_takeWhile_p _ _ _ hc
  · intro c cs hc
    exact dropWhile_head_false _ s7 c cs hc

theorem parse_pr_url_shape (pr_url o r : List Char) (n : Nat)
    (h : parse_pr_url pr_url = some (o, r, n)) : PRUrlShape pr_url o r n := by
  simp only [parse_pr_url] at h
  split at h
  · simp at h
  · rename_i s1 heq1
    have e1 : pyStrip pr_url = ("http").data ++ s1 :=
      (matchLit_eq_some _ _ _).mp heq1
    by_cases hs : s1.head? = some 's'
    · rw [if_pos hs] at h
      cases s1 with
      | nil => simp at hs
      | cons a t =>
        have ha : a = 's' := by simpa using hs
        subst ha
        rw [List.tail_cons] at h
        split at h
        · simp at h
        · rename_i s3 heq2
          have e2 : t = ("://github.com/").data ++ s3 :=
            (matchLit_eq_some _ _ _).mp heq2
          split at h
          · simp at h
          · rename_i hone
            split at h
            · rename_i hslash
              split at h
              · simp at h
              · rename_i hrne
                split at h
                · simp at h
                · rename_i s7 heq3
                  have he3 : List.dropWhile (fun c => c != '/')
                      (List.dropWhile (fun c => c != '/') s3).tail =
                      ("/pull/").data ++ s7 :=
                    (matchLit_eq_some _ _ _).mp heq3
                  split at h
                  · simp at h
                  · rename_i hdne
                    have h' := Option.some.inj h
                    rw [Prod.mk.injEq, Prod.mk.injEq] at h'
                    obtain ⟨rfl, rfl, rfl⟩ := h'
                    refine build_shape pr_url s3 s7 hone hslash hrne he3 hdne
                      (Or.inr ?_)
                    rw [e1, e2]
                    rfl
            · simp at h
    · rw [if_neg hs] at h
      split at h
      · simp at h
      · rename_i s3 heq2
        have e2 : s1 = ("://github.com/").data ++ s3 :=
          (matchLit_eq_some _ _ _).mp heq2
        split at h
        · simp at h
        · rename_i hone
          split at h
          · rename_i hslash
            split at h
            · simp at h
            · rename_i hrne
              split at h
              · simp at h
              · rename_i s7 heq3
                have he3 : List.dropWhile (fun c => c != '/')
                    (List.dropWhile (fun c => c != '/') s3).tail =
                    ("/pull/").data ++ s7 :=
                  (matchLit_eq_some _ _ _).mp heq3
                split at h
                · simp at h
                · rename_i hdne
                  have h' := Option.some.inj h
                  rw [Prod.mk.injEq, Prod.mk.injEq] at h'
                  obtain ⟨rfl, rfl, rfl⟩ := h'
                  refine build_shape pr_url s3 s7 hone hslash hrne he3 hdne
                    (Or.inl ?_)
                  rw [e1, e2]
                  rfl
          · simp at h

theorem shape_parse_pr_url (pr_url o r : List Char) (n : Nat)
    (h : PRUrlShape pr_url o r n) : parse_pr_url pr_url = some (o, r, n) := by
  obtain ⟨ds, rest, hsch, hone, ho2, hrne, hr2, hdne, hd2, hrest, rfl⟩ := h
  have hb1 : ∀ (c : Char) (cs : List Char),
      ('/' :: (r ++ ('/' :: 'p' :: 'u' :: 'l' :: 'l' :: '/' :: (ds ++ rest))))
        = c :: cs → (c != '/') = false := by
    intro c cs hcc
    injection hcc with h1 _
    rw [← h1]
    decide
  have htw_o := takeWhile_spec (fun c => c != '/') o
      ('/' :: (r ++ ('/' :: 'p' :: 'u' :: 'l' :: 'l' :: '/' :: (ds ++ rest))))
      (fun c hc => by simpa using ho2 c hc) hb1
  have hb2 : ∀ (c : Char) (cs : List Char),
      ('/' :: 'p' :: 'u' :: 'l' :: 'l' :: '/' :: (ds ++ rest) : List Char)
        = c :: cs → (c != '/') = false := by
    intro c cs hcc
    injection hcc with h1 _
    rw [← h1]
    decide
  have htw_r := takeWhile_spec (fun c => c != '/') r
      ('/' :: 'p' :: 'u' :: 'l' :: 'l' :: '/' :: (ds ++ rest))
      (fun c hc => by simpa using hr2 c hc) hb2
  have htw_d := takeWhile_spec (fun c => c.isDigit) ds rest hd2 hrest
  have hoe := isEmpty_false_of_ne_nil o hone
  have hre := isEmpty_false_of_ne_nil r hrne
  have hde := isEmpty_false_of_ne_nil (List.takeWhile (fun c => c.isDigit)
    (ds ++ rest)) (by rw [htw_d.1]; exact hdne)
  have hde' := isEmpty_false_of_ne_nil ds hdne
  have hcs : ¬((':' : Char) = 's') := by decide
  rcases hsch with hsch | hsch
  · have hsch' : pyStrip pr_url =
        'h' :: 't' :: 't' :: 'p' :: ':' :: '/' :: '/' :: 'g' :: 'i' :: 't' ::
        'h' :: 'u' :: 'b' :: '.' :: 'c' :: 'o' :: 'm' :: '/' ::
          (o ++ '/' ::
            (r ++ ('/' :: 'p' :: 'u' :: 'l' :: 'l' :: '/' :: (ds ++ rest)))) := by
      rw [hsch]
      simp [List.append_assoc]
    simp only [parse_pr_url, hsch', matchLit, ite_true, ite_false,
      List.head?_cons, Option.some.injEq, eq_false hcs, Bool.false_eq_true,
      List.tail_cons, htw_o.1, htw_o.2, hoe, htw_r.1, htw_r.2, hre,
      htw_d.1, hde, hde']
  · have hsch' : pyStrip pr_url =
        'h' :: 't' :: 't' :: 'p' :: 's' :: ':' :: '/' :: '/' :: 'g' :: 'i' ::
        't' :: 'h' :: 'u' :: 'b' :: '.' :: 'c' :: 'o' :: 'm' :: '/' ::
          (o ++ '/' ::
            (r ++ ('/' :: 'p' :: 'u' :: 'l' :: 'l' :: '/' :: (ds ++ rest)))) := by
      rw [hsch]
      simp [List.append_assoc]
    simp only [parse_pr_url, hsch', matchLit, ite_true, ite_false,
      List.head?_cons, Option.some.injEq, eq_false hcs, Bool.false_eq_true,
      List.tail_cons, htw_o.1, htw_o.2, hoe, htw_r.1, htw_r.2, hre,
      htw_d.1, hde, hde']

/-- C9: `parse_pr_url` returns the triple `(owner, repo, number)` exactly
when the (stripped) input matches the fixed pattern
`https?://github.com/<owner>/<repo>/pull/<number>` under `re.match`
semantics, with `number` the value of the maximal digit run; on any other
input it raises `InvalidURLError` (modelled by `none`), with no partial
extraction. -/
theorem c9_parse_pr_url (pr_url o r : List Char) (n : Nat) :
    parse_pr_url pr_url = some (o, r, n) ↔ PRUrlShape pr_url o r n :=
  ⟨parse_pr_url_shape pr_url o r n, shape_parse_pr_url pr_url o r n⟩

/-- C9 witness: the specification's example URL parses to `(o, r, 12)`, and
a URL missing the `/pull/<n>` segment is rejected. -/
theorem c9_witness :
    parse_pr_url (("https://github.com/o/r/pull/12").data) =
      some ((("o").data), (("r").data), 12) ∧
    parse_pr_url (("https://github.com/o/r").data) = none := by
  constructor
  · apply (c9_parse_pr_url (("https://github.com/o/r/pull/12").data)
      (("o").data) (("r").data) 12).mpr
    refine ⟨(("12").data), [], Or.inr ?_, ?_, ?_, ?_, ?_, ?_, ?_, ?_, ?_⟩
    · decide
    · decide
    · decide
    · decide
    · decide
    · decide
    · decide
    · intro c cs hc
      cases hc
    · decide
  · decide
